import Mathlib

/-!
Verification of the GBP-App report pipeline (src/Report Page/types.ts and
src/Report Page/App.tsx).

The TypeScript source is shallowly embedded: strings are Lean `String`s
(compared by character, which coincides with JavaScript's UTF-16 comparison
on the ASCII data the program handles), JavaScript numbers used as integral
millisecond timestamps are `Int`, finite decimal values produced by
`parseFloat` are exact scaled decimals, and JavaScript objects
(`LogEntry`) are association lists in insertion order with last-write-wins
assignment.  The platform's `Date` calendar arithmetic is modelled by the
proleptic-Gregorian civil-day algorithm of ECMA-262 `MakeDay`/`MakeTime`
with the host time zone taken to be UTC (claims considered here never
compare values produced under different time-zone conventions).
-/

namespace GBP

/-- Characters treated as whitespace by JavaScript's `\s`, `String.prototype.trim`
and friends (ASCII whitespace plus NBSP and the BOM; the exotic Unicode space
code points do not occur in the data handled by this program). -/
def jsIsWhitespace (c : Char) : Bool :=
  c = ' ' || c = '\t' || c = '\n' || c = '\r' || c = '\x0b' || c = '\x0c' ||
  c = ' ' || c = '﻿'

/-- Model of `String.prototype.trim`: drop whitespace from both ends. -/
def jsTrim (s : String) : String :=
  String.mk (((s.toList.dropWhile jsIsWhitespace).reverse.dropWhile jsIsWhitespace).reverse)

/-- Decimal digit test (JavaScript regex `\d`). -/
def isDigit (c : Char) : Bool := '0' ≤ c && c ≤ '9'

/-- Numeric value of a list of decimal digits, as read by `parseInt(issue, 10)`
on an all-digit string. -/
def digitsToNat (ds : List Char) : Nat :=
  ds.foldl (fun n c => 10 * n + (c.toNat - '0'.toNat)) 0

/-- Does the character list start with the given pattern? -/
def strStartsWith : List Char → List Char → Bool
  | _, [] => true
  | [], _ :: _ => false
  | c :: cs, d :: ds => c = d && strStartsWith cs ds

/-- Substring containment test, modelling `String.prototype.includes`. -/
def containsSub : List Char → List Char → Bool
  | [], sub => sub.isEmpty
  | c :: rest, sub => strStartsWith (c :: rest) sub || containsSub rest sub

/-! ## Line Tokenizer (`splitCSVLine`, types.ts lines 25-43) -/

/-- The character loop of `splitCSVLine`: a double quote toggles `inQuotes`
(and is itself discarded), a comma outside quotes ends the current field
(which is pushed trimmed), every other character is appended to the current
field.  `cur` holds the current field reversed. -/
def splitCSVLineAux : List Char → Bool → List Char → List String → List String
  | [], _, cur, acc => acc ++ [jsTrim (String.mk cur.reverse)]
  | c :: rest, inQuotes, cur, acc =>
    if c = '"' then splitCSVLineAux rest (!inQuotes) cur acc
    else if c = ',' && !inQuotes then
      splitCSVLineAux rest inQuotes [] (acc ++ [jsTrim (String.mk cur.reverse)])
    else splitCSVLineAux rest inQuotes (c :: cur) acc

/-- Model of `val.replace(/^"|"$/g, '')`: the global regex removes one leading
double quote (anchored `^`) and one trailing double quote (anchored `$`). -/
def stripEnclosingQuotes (s : String) : String :=
  let cs := match s.toList with
    | '"' :: rest => rest
    | other => other
  let cs := match cs.reverse with
    | '"' :: rest => rest.reverse
    | _ => cs
  String.mk cs

/-- Model of `val.replace(/""/g, '"')`: collapse doubled double quotes
left to right, non-overlapping. -/
def collapseDoubledQuotes : List Char → List Char
  | '"' :: '"' :: rest => '"' :: collapseDoubledQuotes rest
  | c :: rest => c :: collapseDoubledQuotes rest
  | [] => []

/-- Definition of `splitCSVLine` (types.ts lines 25-43): run the character loop, push the
final field, then apply the two replacement passes to every field. -/
def splitCSVLine (line : String) : List String :=
  (splitCSVLineAux line.toList false [] []).map
    (fun val => String.mk (collapseDoubledQuotes (stripEnclosingQuotes val).toList))

/-! ## Date Heuristic Parser (`parseDate`, types.ts lines 46-80) -/

/-- Days from the Unix epoch (1970-01-01) to the civil date `y-m-d`
(month 1-12; a day beyond the month's length rolls into the following month,
exactly as ECMA-262 `MakeDay` normalizes it).  Proleptic Gregorian calendar,
floor divisions throughout. -/
def daysFromCivil (y m d : Nat) : Int :=
  let yi : Int := if m ≤ 2 then (y : Int) - 1 else (y : Int)
  let era : Int := Int.fdiv yi 400
  let yoe : Int := yi - era * 400
  let mp : Int := if m > 2 then (m : Int) - 3 else (m : Int) + 9
  let doy : Int := Int.fdiv (153 * mp + 2) 5 + (d : Int) - 1
  let doe : Int := yoe * 365 + Int.fdiv yoe 4 - Int.fdiv yoe 100 + doy
  era * 146097 + doe - 719468

/-- Millisecond timestamp of `new Date(y, m-1, d, h, mi, s).getTime()` with the
host time zone modelled as UTC (also the value of a parsed ISO date at
midnight).  Out-of-range time fields roll over linearly, as in ECMA-262
`MakeTime`; for every year the program can construct (100-9999) the result is
well inside the representable ±8.64e15 ms range, so `getTime()` is never NaN
and the function is total. -/
def mkTimestamp (y m d h mi s : Nat) : Int :=
  daysFromCivil y m d * 86400000 + (h : Int) * 3600000 + (mi : Int) * 60000 + (s : Int) * 1000

/-- Date-component separator class of the regex, `[\/.-]`. -/
def isSep (c : Char) : Bool := c = '/' || c = '.' || c = '-'

/-- Matcher for the time-of-day tail `(\d{1,2}):(\d{1,2})(?::(\d{1,2}))?$` of
`dmyRegex`.  Each digit group is followed by a non-digit (`:` or the end), so
the regex's greedy match with backtracking is equivalent to taking all digits
and checking the count is in range. -/
def matchTimePart (cs : List Char) : Option (Nat × Nat × Nat) :=
  let (hd, r1) := cs.span isDigit
  if hd.length = 0 || hd.length > 2 then none else
  match r1 with
  | ':' :: r2 =>
    let (md, r3) := r2.span isDigit
    if md.length = 0 || md.length > 2 then none else
    (match r3 with
     | [] => some (digitsToNat hd, digitsToNat md, 0)
     | ':' :: r4 =>
       let (sd, r5) := r4.span isDigit
       if sd.length = 0 || sd.length > 2 then none
       else if r5.isEmpty then some (digitsToNat hd, digitsToNat md, digitsToNat sd)
       else none
     | _ => none)
  | _ => none

/-- Matcher for
`/^(\d{1,2})[\/.-](\d{1,2})[\/.-](\d{2,4})(?:\s+(\d{1,2}):(\d{1,2})(?::(\d{1,2}))?)?$/`
(types.ts line 52), returning `(day, month, yearPart, hour, minute, second)`
as `parseInt` reads the groups, with 0 for absent time groups.  As every digit
group is followed by a non-digit character class or the end of input, the
greedy deterministic scan below matches exactly the strings the backtracking
regex engine accepts. -/
def matchDMY (cs : List Char) : Option (Nat × Nat × Nat × Nat × Nat × Nat) :=
  let (d1, r1) := cs.span isDigit
  if d1.length = 0 || d1.length > 2 then none else
  match r1 with
  | s1 :: r2 =>
    if !isSep s1 then none else
    let (d2, r3) := r2.span isDigit
    if d2.length = 0 || d2.length > 2 then none else
    (match r3 with
     | s2 :: r4 =>
       if !isSep s2 then none else
       let (d3, r5) := r4.span isDigit
       if d3.length < 2 || d3.length > 4 then none else
       (match r5 with
        | [] => some (digitsToNat d1, digitsToNat d2, digitsToNat d3, 0, 0, 0)
        | _ :: _ =>
          let (ws, r6) := r5.span jsIsWhitespace
          if ws.length = 0 then none else
          match matchTimePart r6 with
          | some (h, mi, s) => some (digitsToNat d1, digitsToNat d2, digitsToNat d3, h, mi, s)
          | none => none)
     | [] => none)
  | [] => none

/-- Definition of `parseDate` (types.ts lines 46-80).  The platform's general-purpose
`Date.parse` fallback is a parameter `fallback`; it receives the trimmed
string, exactly as in the source.  `none` models the NaN sentinel.  The
source's `month >= 0 && month <= 11` test on the 0-based month is expressed
on the 1-based `mon` as `1 ≤ mon ∧ mon ≤ 12`; the subsequent
`isNaN(dateObj.getTime())` test is always false for the constructible years
(see `mkTimestamp`), so the validated branch returns unconditionally. -/
def parseDate (fallback : String → Option Int) (dateStr : String) : Option Int :=
  let d := jsTrim dateStr
  if d = "" then none else
  match matchDMY d.toList with
  | some (day, mon, yearPart, h, mi, s) =>
    let year := if yearPart < 100 then yearPart + 2000 else yearPart
    if 1 ≤ mon ∧ mon ≤ 12 ∧ 1 ≤ day ∧ day ≤ 31 then
      some (mkTimestamp year mon day h mi s)
    else fallback d
  | none => fallback d

/-- Length of the given month (1-12) in the given year, Gregorian rules. -/
def daysInMonth (y m : Nat) : Nat :=
  if m = 2 then
    if y % 4 = 0 && (y % 100 ≠ 0 || y % 400 = 0) then 29 else 28
  else if m = 4 || m = 6 || m = 9 || m = 11 then 30
  else 31

/-- Modelled from the spec: the platform's general-purpose date/time string
parser (`Date.parse`), which is not part of this repository.  Per the spec it
"handles ISO-8601 and other recognizable formats"; this model covers the ISO
`YYYY-MM-DD` date-only form exercised by the specification (interpreted at
UTC midnight, with calendar-valid fields, as ECMA-262 prescribes) and returns
the NaN sentinel for every other string. -/
def jsDateParse (s : String) : Option Int :=
  match s.toList with
  | [y1, y2, y3, y4, '-', m1, m2, '-', d1, d2] =>
    if isDigit y1 && isDigit y2 && isDigit y3 && isDigit y4 &&
       isDigit m1 && isDigit m2 && isDigit d1 && isDigit d2 then
      let y := digitsToNat [y1, y2, y3, y4]
      let m := digitsToNat [m1, m2]
      let d := digitsToNat [d1, d2]
      if 1 ≤ m ∧ m ≤ 12 ∧ 1 ≤ d ∧ d ≤ daysInMonth y m then
        some (mkTimestamp y m d 0 0 0)
      else none
    else none
  | _ => none

/-! ## Records and the Tabular Parser (`parseCSV`, types.ts lines 82-112) -/

/-- A `LogEntry` (types.ts): a JavaScript object mapping column names to the
string values produced by the CSV parser, kept in insertion order. -/
abbrev LogEntry := List (String × String)

/-- Property read `obj[key]`: `none` models `undefined`. -/
def objGet (o : LogEntry) (k : String) : Option String :=
  (o.find? (fun p => p.1 = k)).map (fun p => p.2)

/-- Property write `obj[key] = v`: overwrite in place if the key exists
(JavaScript keeps the original insertion position), append otherwise. -/
def objSet (o : LogEntry) (k v : String) : LogEntry :=
  if o.any (fun p => p.1 = k) then
    o.map (fun p => if p.1 = k then (k, v) else p)
  else o ++ [(k, v)]

/-- Model of `Object.keys`, in insertion order. -/
def objKeys (o : LogEntry) : List String := o.map (fun p => p.1)

/-- Model of `Object.values`, in insertion order. -/
def objValues (o : LogEntry) : List String := o.map (fun p => p.2)

/-- Result of `String(value)` applied to a possibly-`undefined` property read. -/
def stringOfVal : Option String → String
  | some s => s
  | none => "undefined"

/-- Model of `text.split(/\r?\n/)`: each `\r\n` pair or lone `\n` ends a line;
a lone `\r` is not a separator. -/
def splitLinesAux : List Char → List Char → List String
  | [], cur => [String.mk cur.reverse]
  | '\r' :: '\n' :: rest, cur => String.mk cur.reverse :: splitLinesAux rest []
  | '\n' :: rest, cur => String.mk cur.reverse :: splitLinesAux rest []
  | c :: rest, cur => splitLinesAux rest (c :: cur)

def splitLines (s : String) : List String := splitLinesAux s.toList []

/-- The non-blank lines of the response text
(`text.split(/\r?\n/).filter(line => line.trim() !== '')`). -/
def nonBlankLines (text : String) : List String :=
  (splitLines text).filter (fun l => jsTrim l ≠ "")

/-- Build one record from the header fields and a line's fields
(`headers.forEach((header, index) => entry[header.trim()] = currentLine[index])`);
only called when both lists have equal length. -/
def zipEntry (headers vals : List String) : LogEntry :=
  (headers.zip vals).foldl (fun e hv => objSet e (jsTrim hv.1) hv.2) []

/-- The pure core of `parseCSV` (types.ts lines 88-107), applied to the fetched
response text: fewer than 2 non-blank lines yield the empty table; every
further line is tokenized and kept only when its field count equals the
header's. -/
def parseCSVText (text : String) : List LogEntry :=
  let lines := nonBlankLines text
  if lines.length < 2 then [] else
  match lines with
  | [] => []
  | header :: rest =>
    let headers := splitCSVLine header
    rest.foldl
      (fun data line =>
        let currentLine := splitCSVLine line
        if currentLine.length = headers.length then data ++ [zipEntry headers currentLine]
        else data)
      []

/-- Definition of `parseCSV` (types.ts lines 82-112).  The `fetch`/`response.text()` step is
modelled by its outcome: `Except.error` covers a network failure as well as a
non-ok HTTP status (the source throws on `!response.ok`).  The surrounding
`try`/`catch` turns every failure into the empty table after logging a
diagnostic; no fault propagates to the caller. -/
def parseCSV : Except String String → List LogEntry
  | .error _ => []
  | .ok text => parseCSVText text

/-! ## Number parsing (`parseFloat`) -/

/-- A JavaScript number as produced by `parseFloat` on a non-NaN input:
either an exact finite decimal value, represented without loss as
`mant / 10 ^ scale`, or a signed infinity.  (Representing the decimal exactly
rather than as an IEEE double is sound for this program: rounding to double
is monotone and the program only ever compares such numbers.) -/
inductive JSNum where
  | finite (mant : Int) (scale : Nat)
  | posInf
  | negInf
deriving Repr, DecidableEq

/-- Model of `parseFloat`: skip leading whitespace, read an optional sign, then
either the literal `Infinity` or a decimal mantissa (digits, an optional dot
and fraction digits; at least one digit overall); `none` models NaN.  A
decimal exponent would only scale the finite value and is omitted: every call
site in the program either tests only NaN-ness (where the optional exponent
is irrelevant) or applies `parseFloat` to a string already stripped to the
characters `[0-9.-]`, which cannot carry an exponent marker. -/
def jsParseFloat (s : String) : Option JSNum :=
  let cs := s.toList.dropWhile jsIsWhitespace
  let signAndRest : Bool × List Char :=
    match cs with
    | '-' :: rest => (true, rest)
    | '+' :: rest => (false, rest)
    | other => (false, other)
  let neg := signAndRest.1
  let cs := signAndRest.2
  if strStartsWith cs "Infinity".toList then
    some (if neg then JSNum.negInf else JSNum.posInf)
  else
    let (ip, r1) := cs.span isDigit
    let fp : List Char :=
      match r1 with
      | '.' :: rest => (rest.span isDigit).1
      | _ => []
    if ip.length = 0 && fp.length = 0 then none
    else
      let mag : Int := (digitsToNat (ip ++ fp) : Int)
      some (JSNum.finite (if neg then -mag else mag) fp.length)

/-! ## Column Inferencer (`identifyColumns`, types.ts lines 122-158) -/

/-- Structure `ColumnDefinition` (types.ts lines 17-22); `identifyColumns` always sets
both optional flags, so they are plain booleans here. -/
structure ColumnDefinition where
  key : String
  label : String
  isDate : Bool
  isNumeric : Bool
deriving Repr, DecidableEq

/-- First character upper-cased, rest unchanged
(`key.charAt(0).toUpperCase() + key.slice(1)`). -/
def capitalize (s : String) : String :=
  match s.toList with
  | [] => ""
  | c :: rest => String.mk (c.toUpper :: rest)

/-- JavaScript truthiness of a property read whose value, when present, is a
string: `undefined` and the empty string are falsy. -/
def truthyVal : Option String → Bool
  | none => false
  | some s => s ≠ ""

/-- The sample-finding loop of `identifyColumns` (types.ts lines 127-134):
the first truthy value of the column among the first
`Math.min(data.length, 10)` records, else the empty string. -/
def findSample (data : List LogEntry) (key : String) : String :=
  match (data.take 10).find? (fun r => truthyVal (objGet r key)) with
  | some r => stringOfVal (objGet r key)
  | none => ""

/-- Model of `String.prototype.toLowerCase`, character by character (the data
this program lowercases is ASCII, where this agrees with JavaScript). -/
def lowerStr (s : String) : String := String.mk (s.toList.map Char.toLower)

/-- The key-name date test (types.ts lines 136-137):
`lowerKey.includes('date') || lowerKey.includes('timestamp') || lowerKey.includes('time')`. -/
def dateKeyTest (key : String) : Bool :=
  let lk := (lowerStr key).toList
  containsSub lk "date".toList || containsSub lk "timestamp".toList ||
    containsSub lk "time".toList

/-- Test `/[\/.-]/.test(sampleValue)` (types.ts line 145). -/
def hasDateSeparators (s : String) : Bool := s.toList.any isSep

/-- Test `/[\d]+/.test(sampleValue)` (types.ts line 149). -/
def containsDigit (s : String) : Bool := s.toList.any isDigit

/-- Model of `sampleValue.replace(/,/g, '')`. -/
def removeCommas (s : String) : String :=
  String.mk (s.toList.filter (fun c => c ≠ ','))

/-- Body of the `keys.map` in `identifyColumns` (types.ts lines 126-156),
parameterized like `parseDate` by the platform date-parser fallback. -/
def mkColumnDef (fb : String → Option Int) (data : List LogEntry) (key : String) :
    ColumnDefinition :=
  let sampleValue := findSample data key
  let isDate :=
    if dateKeyTest key then true
    else if sampleValue ≠ "" then
      (parseDate fb sampleValue).isSome && sampleValue.length > 5 &&
        hasDateSeparators sampleValue
    else false
  let isNumeric :=
    !isDate && (jsParseFloat (removeCommas sampleValue)).isSome && containsDigit sampleValue
  { key := key, label := capitalize key, isDate := isDate, isNumeric := isNumeric }

/-- Definition of `identifyColumns` (types.ts lines 122-158): one definition per key of the
first record, in key order. -/
def identifyColumns (fb : String → Option Int) (data : List LogEntry) :
    List ColumnDefinition :=
  match data with
  | [] => []
  | first :: _ => (objKeys first).map (mkColumnDef fb data)

/-! ## Filter-Column Selector (`filterableColumns`, App.tsx lines 154-206) -/

/-- Lookup `startPriorities` (App.tsx lines 157-159); `undefined` becomes `[]`
via the `|| []` default. -/
def startPriorities (reportId : String) : List String :=
  if reportId = "material" then ["Material", "Materials"] else []

/-- Lookup `endPriorities` (App.tsx lines 162-164). -/
def endPriorities (reportId : String) : List String :=
  if reportId = "worklog" then ["Work Description"] else []

/-- Lookup `blacklist` (App.tsx lines 167-170). -/
def blacklist (reportId : String) : List String :=
  if reportId = "worklog" then ["MA"]
  else if reportId = "tealog" then ["Biscuit", "Biscuits"]
  else []

/-- Definition of `matchKey` (App.tsx lines 176-177): case-insensitive equality of the
column's trimmed key or trimmed label with any of the given names. -/
def matchKey (col : ColumnDefinition) (keys : List String) : Bool :=
  keys.any (fun k =>
    jsTrim (lowerStr col.key) = lowerStr k || jsTrim (lowerStr col.label) = lowerStr k)

/-- Definition of `startCols` (App.tsx line 180). -/
def startColsOf (reportId : String) (columns : List ColumnDefinition) :
    List ColumnDefinition :=
  columns.filter (fun col => matchKey col (startPriorities reportId))

/-- Definition of `endCols` (App.tsx line 181). -/
def endColsOf (reportId : String) (columns : List ColumnDefinition) :
    List ColumnDefinition :=
  columns.filter (fun col => matchKey col (endPriorities reportId))

/-- Value of `new Set(data.map(row => String(row[col.key]))).size`: the number of
distinct stringified values of the column over the whole table. -/
def uniqueCount (data : List LogEntry) (key : String) : Nat :=
  ((data.map (fun row => stringOfVal (objGet row key))).dedup).length

/-- Definition of `autoCols` (App.tsx lines 184-198): columns not already forced (compared by
key), not blacklisted, not a numeric amount, whose distinct-value count over
the full table is strictly between 0 and 20. -/
def autoColsOf (reportId : String) (columns : List ColumnDefinition)
    (data : List LogEntry) : List ColumnDefinition :=
  columns.filter (fun col =>
    !(startColsOf reportId columns).any (fun p => p.key = col.key) &&
    !(endColsOf reportId columns).any (fun p => p.key = col.key) &&
    !matchKey col (blacklist reportId) &&
    !(col.isNumeric && containsSub (lowerStr col.label).toList "amount".toList) &&
    (decide (0 < uniqueCount data col.key) && decide (uniqueCount data col.key < 20)))

/-- Value of `Math.max(0, 4 - startCols.length - endCols.length)` (App.tsx line 202). -/
def availableSlots (reportId : String) (columns : List ColumnDefinition) : Nat :=
  ((4 : Int) - (startColsOf reportId columns).length - (endColsOf reportId columns).length).toNat

/-- Value of `autoCols.slice(0, availableSlots)` (App.tsx line 203). -/
def selectedAutoCols (reportId : String) (columns : List ColumnDefinition)
    (data : List LogEntry) : List ColumnDefinition :=
  (autoColsOf reportId columns data).take (availableSlots reportId columns)

/-- Definition of `filterableColumns` (App.tsx lines 154-206):
`[...startCols, ...selectedAutoCols, ...endCols]`. -/
def filterableColumns (reportId : String) (columns : List ColumnDefinition)
    (data : List LogEntry) : List ColumnDefinition :=
  startColsOf reportId columns ++ selectedAutoCols reportId columns data ++
    endColsOf reportId columns

/-! ## Filter/Sort/Search engine (`processedData`, App.tsx lines 282-323) -/

/-- Sort direction of `sortConfig` ('asc' | 'desc'). -/
inductive SortDir where
  | asc
  | desc
deriving Repr, DecidableEq

/-- State `sortConfig`: `{ key, direction }`. -/
structure SortConfig where
  key : String
  direction : SortDir
deriving Repr, DecidableEq

/-- Lexicographic character-list comparison: JavaScript's `<` on strings
(UTF-16 code-unit order, which agrees with code-point order on the data in
scope). -/
def charListLt : List Char → List Char → Bool
  | [], [] => false
  | [], _ :: _ => true
  | _ :: _, [] => false
  | a :: as, b :: bs => if a < b then true else if b < a then false else charListLt as bs

/-- JavaScript `valA < valB` on possibly-`undefined` string values: any
comparison with `undefined` is false. -/
def jsLtVal : Option String → Option String → Bool
  | some a, some b => charListLt a.toList b.toList
  | _, _ => false

/-- Model of `String(val).replace(/[^0-9.-]+/g, "")` (App.tsx lines 309-310). -/
def stripNonNumeric (s : String) : String :=
  String.mk (s.toList.filter (fun c => isDigit c || c = '.' || c = '-'))

/-- A comparator result: a JavaScript number represented exactly as
`mant / 10 ^ scale`.  `Array.prototype.sort` consumes only its sign, which is
the sign of `mant`; integral results (every date and string comparison) have
`scale = 0`, so `mant` is then the exact JavaScript value. -/
abbrev CmpRes := Int × Nat

/-- Difference `numA - numB` for two non-NaN `parseFloat` results, as an exact scaled
decimal.  For operands involving infinities (unreachable from the stripped
strings this program compares, which contain no letters) the result is
sign-faithful, with `Infinity - Infinity`, a NaN, mapped to `+0` as ECMA-262
`SortCompare` does. -/
def jsnumSub : JSNum → JSNum → CmpRes
  | .finite a s, .finite b t => (a * (10 : Int) ^ t - b * (10 : Int) ^ s, s + t)
  | .posInf, .posInf => (0, 0)
  | .negInf, .negInf => (0, 0)
  | .posInf, _ => (1, 0)
  | .negInf, _ => (-1, 0)
  | .finite _ _, .posInf => (-1, 0)
  | .finite _ _, .negInf => (1, 0)

/-- The final string comparison of the comparator (App.tsx lines 316-318). -/
def strCompare (dir : SortDir) (valA valB : Option String) : CmpRes :=
  if jsLtVal valA valB then (if dir = SortDir.asc then (-1, 0) else (1, 0))
  else if jsLtVal valB valA then (if dir = SortDir.asc then (1, 0) else (-1, 0))
  else (0, 0)

/-- The numeric-then-string tail of the comparator (App.tsx lines 309-318),
reached when the date branch does not return. -/
def numStrCompare (colDef : Option ColumnDefinition) (dir : SortDir)
    (valA valB : Option String) : CmpRes :=
  let numA := jsParseFloat (stripNonNumeric (stringOfVal valA))
  let numB := jsParseFloat (stripNonNumeric (stringOfVal valB))
  let isNum := match colDef with
    | some cd => cd.isNumeric
    | none => false
  match numA, numB with
  | some x, some y =>
    if isNum then (if dir = SortDir.asc then jsnumSub x y else jsnumSub y x)
    else strCompare dir valA valB
  | _, _ => strCompare dir valA valB

/-- The date branch of the comparator (App.tsx lines 296-307): `some r` models
an early `return r`, `none` models falling through (the column is a date
column but neither side parses). -/
def dateCompare (fb : String → Option Int) (dir : SortDir)
    (valA valB : Option String) : Option CmpRes :=
  match parseDate fb (stringOfVal valA), parseDate fb (stringOfVal valB) with
  | some dateA, some dateB =>
    some ((if dir = SortDir.asc then dateA - dateB else dateB - dateA), 0)
  | some _, none => some (-1, 0)
  | none, some _ => some (1, 0)
  | none, none => none

/-- The whole sort comparator passed to `filtered.sort` (App.tsx lines
290-319). -/
def sortCompare (fb : String → Option Int) (columns : List ColumnDefinition)
    (cfg : SortConfig) (a b : LogEntry) : CmpRes :=
  let valA := objGet a cfg.key
  let valB := objGet b cfg.key
  let colDef := columns.find? (fun c => c.key = cfg.key)
  let isDateCol := match colDef with
    | some cd => cd.isDate
    | none => false
  match (if isDateCol then dateCompare fb cfg.direction valA valB else none) with
  | some r => r
  | none => numStrCompare colDef cfg.direction valA valB

/-- The free-text search filter (App.tsx lines 283-287): some stringified field
value, lower-cased, contains the lower-cased search term. -/
def searchMatches (searchTerm : String) (item : LogEntry) : Bool :=
  (objValues item).any (fun val =>
    containsSub (lowerStr val).toList (lowerStr searchTerm).toList)

/-- Model of `Array.prototype.sort`, which since ES2019 is a stable sort consistent with
the comparator: an element goes before another when the comparator does not
order it strictly after. -/
def jsSortBy (cmp : LogEntry → LogEntry → CmpRes) (l : List LogEntry) : List LogEntry :=
  l.mergeSort (fun a b => (cmp a b).1 ≤ 0)

/-- Definition of `processedData` (App.tsx lines 282-323): the search-filtered records,
sorted by the comparator when a sort is active. -/
def processedData (fb : String → Option Int) (data : List LogEntry)
    (searchTerm : String) (sortConfig : Option SortConfig)
    (columns : List ColumnDefinition) : List LogEntry :=
  let filtered := data.filter (searchMatches searchTerm)
  match sortConfig with
  | none => filtered
  | some cfg => jsSortBy (sortCompare fb columns cfg) filtered

/-! ## PDF export (`downloadPDF`, types.ts lines 160-185; `handleDownload`,
App.tsx lines 330-332) -/

/-- The well-formed input handed to the opaque PDF sink: the title line, the
header row of column labels, the body rows (one list of cell values per
record, `undefined` for a missing key), and the name of the saved file. -/
structure PDFDoc where
  title : String
  head : List String
  body : List (List (Option String))
  filename : String
deriving Repr, DecidableEq

/-- Character loop of the whitespace-run replacement: the flag records whether
the previous character was part of a whitespace run already replaced. -/
def replaceWhitespaceRunsAux : Bool → List Char → List Char
  | _, [] => []
  | inRun, c :: rest =>
    if jsIsWhitespace c then
      if inRun then replaceWhitespaceRunsAux true rest
      else '_' :: replaceWhitespaceRunsAux true rest
    else c :: replaceWhitespaceRunsAux false rest

/-- Model of `title.replace(/\s+/g, '_')`: every maximal run of whitespace
becomes a single underscore. -/
def replaceWhitespaceRuns (s : String) : String :=
  String.mk (replaceWhitespaceRunsAux false s.toList)

/-- Definition of `downloadPDF` (types.ts lines 160-185), as the data it passes to the
`jsPDF` sink: `doc.text(title, ...)`, `head = [columns.map(col => col.label)]`,
`body = data.map(row => columns.map(col => row[col.key]))`, and
`doc.save(title.replace(/\s+/g, '_') + '_Report.pdf')`. -/
def downloadPDF (title : String) (columns : List ColumnDefinition)
    (data : List LogEntry) : PDFDoc :=
  { title := title
    head := columns.map (fun col => col.label)
    body := data.map (fun row => columns.map (fun col => objGet row col.key))
    filename := replaceWhitespaceRuns title ++ "_Report.pdf" }

/-- Definition of `handleDownload` (App.tsx lines 330-332): exports `processedData` — the
filtered, searched and sorted rows, not the paginated slice. -/
def handleDownload (fb : String → Option Int) (title : String)
    (columns : List ColumnDefinition) (data : List LogEntry)
    (searchTerm : String) (sortConfig : Option SortConfig) : PDFDoc :=
  downloadPDF title columns (processedData fb data searchTerm sortConfig columns)

/-! ## Per-report column removal (`fetchData`, App.tsx lines 550-569) -/

/-- Model of `cols.filter((_, index) => p index)`. -/
def filterWithIdxAux (p : Nat → Bool) : Nat → List ColumnDefinition → List ColumnDefinition
  | _, [] => []
  | i, x :: xs =>
    if p i then x :: filterWithIdxAux p (i + 1) xs else filterWithIdxAux p (i + 1) xs

def filterWithIdx (p : Nat → Bool) (l : List ColumnDefinition) : List ColumnDefinition :=
  filterWithIdxAux p 0 l

/-- The custom per-report logic of `fetchData` (App.tsx lines 550-567) applied
to the inferred columns: the worklog report drops the columns at indices 2 and
3 (only index 2 when exactly 3 columns exist), the material report splices out
index 2, other reports keep every column. -/
def adjustColumns (reportId : String) (cols : List ColumnDefinition) :
    List ColumnDefinition :=
  if reportId = "worklog" then
    if cols.length > 3 then filterWithIdx (fun i => i ≠ 2 && i ≠ 3) cols
    else if cols.length > 2 then filterWithIdx (fun i => i ≠ 2) cols
    else cols
  else if reportId = "material" then
    if cols.length > 2 then cols.take 2 ++ cols.drop 3
    else cols
  else cols

/-! ## Helper lemmas -/

/-- An indexed filter whose predicate holds from position `n` on keeps the
whole list. -/
lemma filterWithIdxAux_all_true (p : Nat → Bool) :
    ∀ (l : List ColumnDefinition) (n : Nat), (∀ i, n ≤ i → p i = true) →
      filterWithIdxAux p n l = l := by
  intro l
  induction l with
  | nil => intro n _; rfl
  | cons x xs ih =>
    intro n h
    simp only [filterWithIdxAux, h n (Nat.le_refl n), if_true]
    rw [ih (n + 1) (fun i hi => h i (Nat.le_of_succ_le hi))]

/-- The record-accumulating `for` loop of `parseCSV` keeps exactly the lines
whose field count matches the header's, in order. -/
lemma parseCSV_foldl_eq (headers : List String) :
    ∀ (rest : List String) (init : List LogEntry),
      rest.foldl
        (fun data line =>
          let currentLine := splitCSVLine line
          if currentLine.length = headers.length then data ++ [zipEntry headers currentLine]
          else data)
        init
      = init ++ (rest.filter
            (fun l => decide ((splitCSVLine l).length = headers.length))).map
          (fun l => zipEntry headers (splitCSVLine l)) := by
  intro rest
  induction rest with
  | nil => intro init; simp
  | cons line rest ih =>
    intro init
    by_cases h : (splitCSVLine line).length = headers.length
    · simp [List.foldl_cons, List.filter_cons, h, ih]
    · simp [List.foldl_cons, List.filter_cons, h, ih]

/-! ## Claims -/

/-- C1: evaluation of the line tokenizer on the three specified inputs.  The
first and third agree with the claim, but on the doubled-quote input the code
yields the middle field "bc", not the claimed single literal quote: the loop
treats every double quote purely as a toggle and never appends it, so the
collapse step `replace(/""/g, '"')` at types.ts line 42 can never see a
quote. -/
theorem c1_splitCSVLine_eval :
    splitCSVLine "a,\"b,c\",d" = ["a", "b,c", "d"] ∧
    splitCSVLine "a,b," = ["a", "b", ""] ∧
    splitCSVLine "a,\"b\"\"c\",d" = ["a", "bc", "d"] := by
  refine ⟨by decide, by decide, by decide⟩

/-- C9: the per-report column removal of `fetchData` — the worklog report drops
the inferred columns at 0-based indices 2 and 3 when more than 3 exist (only
index 2 when exactly 3), the material report drops index 2 when more than 2
exist, and every other report keeps all inferred columns. -/
theorem c9_adjustColumns (cols : List ColumnDefinition) :
    (cols.length > 3 → adjustColumns "worklog" cols = cols.take 2 ++ cols.drop 4) ∧
    (cols.length = 3 → adjustColumns "worklog" cols = cols.take 2) ∧
    (cols.length > 2 → adjustColumns "material" cols = cols.take 2 ++ cols.drop 3) ∧
    (∀ reportId, reportId ≠ "worklog" → reportId ≠ "material" →
      adjustColumns reportId cols = cols) := by
  refine ⟨?_, ?_, ?_, ?_⟩
  · intro h
    match cols, h with
    | a :: b :: c :: d :: t, _ =>
      show adjustColumns "worklog" (a :: b :: c :: d :: t) = _
      simp only [adjustColumns, if_true, List.length_cons, if_pos rfl,
        if_pos (by omega : (t.length + 1 + 1 + 1 + 1) > 3), filterWithIdx,
        filterWithIdxAux]
      norm_num
      rw [filterWithIdxAux_all_true _ t 4 (by intro i hi; simp; omega)]
  · intro h
    match cols, h with
    | [a, b, c], _ =>
      show adjustColumns "worklog" [a, b, c] = _
      simp only [adjustColumns, if_pos rfl, List.length_cons, List.length_nil]
      norm_num [filterWithIdx, filterWithIdxAux]
  · intro h
    match cols, h with
    | a :: b :: c :: t, _ =>
      show adjustColumns "material" (a :: b :: c :: t) = _
      have hne : ("material" : String) ≠ "worklog" := by decide
      simp only [adjustColumns, if_neg hne, if_pos rfl, List.length_cons]
      norm_num
  · intro reportId h1 h2
    simp only [adjustColumns, if_neg h1, if_neg h2]

/-- C9 witness. -/
theorem c9_witness :
    adjustColumns "worklog"
        [⟨"a", "A", false, false⟩, ⟨"b", "B", false, false⟩, ⟨"c", "C", false, false⟩,
         ⟨"d", "D", false, false⟩, ⟨"e", "E", false, false⟩] =
      [⟨"a", "A", false, false⟩, ⟨"b", "B", false, false⟩, ⟨"e", "E", false, false⟩] :=
  ((c9_adjustColumns _).1 (by decide)).trans (by decide)

/-- C4: the tabular parser returns the empty table on a transport failure and
on fewer than 2 non-blank lines, and otherwise keeps exactly the non-header
lines whose tokenized field count equals the header's, dropping the rest. -/
theorem c4_parseCSV :
    (∀ err, parseCSV (Except.error err) = []) ∧
    (∀ text, (nonBlankLines text).length < 2 → parseCSVText text = []) ∧
    (∀ text header rest, nonBlankLines text = header :: rest →
      parseCSVText text =
        (rest.filter
            (fun l => decide ((splitCSVLine l).length = (splitCSVLine header).length))).map
          (fun l => zipEntry (splitCSVLine header) (splitCSVLine l))) := by
  refine ⟨fun _ => rfl, ?_, ?_⟩
  · intro text h
    simp only [parseCSVText, if_pos h]
  · intro text header rest hlines
    by_cases hlen : (nonBlankLines text).length < 2
    · rw [hlines] at hlen
      match rest, hlen with
      | [], _ =>
        simp only [parseCSVText, hlines, List.length_cons, List.length_nil,
          List.filter_nil, List.map_nil, if_pos (by omega : 0 + 1 < 2)]
    · rw [hlines] at hlen
      simp only [parseCSVText, hlines, if_neg hlen]
      rw [parseCSV_foldl_eq]
      simp

/-- C4 witness. -/
theorem c4_witness :
    parseCSVText "A,B\nx,y\np,q,r\nu,v" =
      ((["x,y", "p,q,r", "u,v"].filter
          (fun l => decide ((splitCSVLine l).length = (splitCSVLine "A,B").length))).map
        (fun l => zipEntry (splitCSVLine "A,B") (splitCSVLine l))) :=
  c4_parseCSV.2.2 "A,B\nx,y\np,q,r\nu,v" "A,B" ["x,y", "p,q,r", "u,v"] (by decide)

/-- C2: whenever the trimmed input matches the day-first pattern with a
calendar-valid day and month, `parseDate` returns that day-first timestamp no
matter what the platform parser would say (two-digit years read as
2000+year); the ISO string "2024-03-04" does not match the pattern and goes
through the fallback as March 4, 2024; "03/04/2024" is April 3, 2024; and an
unrecognizable string yields the not-a-date sentinel. -/
theorem c2_parseDate :
    (∀ (fallback : String → Option Int) (s : String) (day mon yearPart h mi sec : Nat),
      matchDMY (jsTrim s).toList = some (day, mon, yearPart, h, mi, sec) →
      1 ≤ mon → mon ≤ 12 → 1 ≤ day → day ≤ 31 →
      parseDate fallback s =
        some (mkTimestamp (if yearPart < 100 then yearPart + 2000 else yearPart)
          mon day h mi sec)) ∧
    matchDMY (jsTrim "2024-03-04").toList = none ∧
    parseDate jsDateParse "03/04/2024" = some (mkTimestamp 2024 4 3 0 0 0) ∧
    parseDate jsDateParse "2024-03-04" = some (mkTimestamp 2024 3 4 0 0 0) ∧
    parseDate jsDateParse "not a date" = none := by
  refine ⟨?_, by decide, by decide, by decide, by decide⟩
  intro fallback s day mon yearPart h mi sec hm h1 h2 h3 h4
  have hne : jsTrim s ≠ "" := by
    intro h0
    rw [h0] at hm
    exact Option.noConfusion ((by decide : matchDMY ("".toList) = none) ▸ hm)
  simp only [parseDate, if_neg hne, hm]
  rw [if_pos ⟨h1, h2, h3, h4⟩]

/-- C2 witness. -/
theorem c2_witness :
    parseDate (fun _ => none) "5/6/2024 7:8:9" = some (mkTimestamp 2024 6 5 7 8 9) := by
  have h := c2_parseDate.1 (fun _ => none) "5/6/2024 7:8:9" 5 6 2024 7 8 9
    (by decide) (by decide) (by decide) (by decide) (by decide)
  rw [h]
  norm_num

/-- C5: every column definition the inferencer produces has `isDate` and
`isNumeric` mutually exclusive (the date check runs first and `isNumeric` is
conjoined with its negation), and a column whose name case-insensitively
contains "date", "timestamp" or "time" is forced to `isDate`, whatever its
sample value. -/
theorem c5_identifyColumns (fb : String → Option Int) (data : List LogEntry)
    (col : ColumnDefinition) (hmem : col ∈ identifyColumns fb data) :
    (¬(col.isDate = true ∧ col.isNumeric = true)) ∧
    (dateKeyTest col.key = true → col.isDate = true) := by
  match data, hmem with
  | first :: rest, hmem =>
    simp only [identifyColumns, List.mem_map] at hmem
    obtain ⟨key, -, hcol⟩ := hmem
    subst hcol
    constructor
    · have hgen : ∀ (b p q : Bool), ¬(b = true ∧ (!b && p && q) = true) := by decide
      exact hgen _ _ _
    · intro hk
      simp only [mkColumnDef] at hk ⊢
      rw [if_pos hk]

/-- C5 witness. -/
theorem c5_witness :
    (¬((⟨"Date", "Date", true, false⟩ : ColumnDefinition).isDate = true ∧
        (⟨"Date", "Date", true, false⟩ : ColumnDefinition).isNumeric = true)) ∧
    (dateKeyTest (⟨"Date", "Date", true, false⟩ : ColumnDefinition).key = true →
      (⟨"Date", "Date", true, false⟩ : ColumnDefinition).isDate = true) :=
  c5_identifyColumns jsDateParse [[("Date", "1/2/2024")]] ⟨"Date", "Date", true, false⟩
    (by decide)

/-- Membership in the auto-selected filter columns implies membership in the
candidate list and hence that the filter conditions held. -/
lemma mem_selectedAutoCols {reportId : String} {columns : List ColumnDefinition}
    {data : List LogEntry} {col : ColumnDefinition}
    (h : col ∈ selectedAutoCols reportId columns data) :
    col ∈ columns ∧
      (!(startColsOf reportId columns).any (fun p => p.key = col.key) &&
       !(endColsOf reportId columns).any (fun p => p.key = col.key) &&
       !matchKey col (blacklist reportId) &&
       !(col.isNumeric && containsSub (lowerStr col.label).toList "amount".toList) &&
       (decide (0 < uniqueCount data col.key) &&
        decide (uniqueCount data col.key < 20))) = true := by
  have h1 : col ∈ autoColsOf reportId columns data :=
    List.take_subset _ _ h
  exact List.mem_filter.mp h1

/-- C3 counterexample: the forced-start columns are never truncated, so a
table whose five (distinct) header keys all case-insensitively equal
"material" makes the material report's selector return five filter columns. -/
theorem c3_counterexample :
    4 < (filterableColumns "material"
        (identifyColumns jsDateParse
          (parseCSVText "Material,MATERIAL,MATeRIAL,MATERiAL,MATERIAl\na,b,c,d,e"))
        (parseCSVText "Material,MATERIAL,MATeRIAL,MATERiAL,MATERIAl\na,b,c,d,e")).length := by
  decide

/-- C3 (amended): the selector returns forced-start, then auto-selected, then
forced-end columns in that order; the auto-selected part is truncated to
`max 0 (4 - forced)` slots, so the total is at most 4 whenever the forced
columns number at most 4 (forced columns are never truncated); and every
auto-selected column has strictly between 0 and 20 distinct stringified
values over the full table. -/
theorem c3_selector (reportId : String) (columns : List ColumnDefinition)
    (data : List LogEntry) :
    filterableColumns reportId columns data =
      startColsOf reportId columns ++ selectedAutoCols reportId columns data ++
        endColsOf reportId columns ∧
    (selectedAutoCols reportId columns data).length ≤ availableSlots reportId columns ∧
    ((startColsOf reportId columns).length + (endColsOf reportId columns).length ≤ 4 →
      (filterableColumns reportId columns data).length ≤ 4) ∧
    (∀ col ∈ selectedAutoCols reportId columns data,
      0 < uniqueCount data col.key ∧ uniqueCount data col.key < 20) := by
  have hlen : (selectedAutoCols reportId columns data).length ≤
      availableSlots reportId columns := by
    simp only [selectedAutoCols, List.length_take]
    exact min_le_left _ _
  refine ⟨rfl, hlen, ?_, ?_⟩
  · intro hforced
    have hslots : availableSlots reportId columns =
        ((4 : Int) - (startColsOf reportId columns).length -
          (endColsOf reportId columns).length).toNat := rfl
    simp only [filterableColumns, List.length_append]
    omega
  · intro col hcol
    have h := (mem_selectedAutoCols hcol).2
    simp only [Bool.and_eq_true, decide_eq_true_eq] at h
    exact h.2

/-- C3 witness. -/
theorem c3_witness :
    (filterableColumns "worklog" [⟨"Task", "Task", false, false⟩]
      [[("Task", "x")]]).length ≤ 4 :=
  (c3_selector "worklog" [⟨"Task", "Task", false, false⟩] [[("Task", "x")]]).2.2.1
    (by decide)

/-- C6: for the worklog report no auto-selected filter column matches "MA"
(case-insensitively on key or label) and none matches "Work Description",
every forced-end column does match "Work Description", and the selected list
is exactly the auto-selected columns followed by the forced-end columns — so
the "Work Description" columns, when selected, come last. -/
theorem c6_worklogFilters (columns : List ColumnDefinition) (data : List LogEntry) :
    (∀ col ∈ selectedAutoCols "worklog" columns data, matchKey col ["MA"] = false) ∧
    (∀ col ∈ selectedAutoCols "worklog" columns data,
      matchKey col ["Work Description"] = false) ∧
    (∀ col ∈ endColsOf "worklog" columns, matchKey col ["Work Description"] = true) ∧
    filterableColumns "worklog" columns data =
      selectedAutoCols "worklog" columns data ++ endColsOf "worklog" columns := by
  have hstart : startColsOf "worklog" columns = [] := by
    have : ∀ col, matchKey col (startPriorities "worklog") = false := by
      intro col; rfl
    simp [startColsOf, this]
  refine ⟨?_, ?_, ?_, ?_⟩
  · intro col hcol
    have h := (mem_selectedAutoCols hcol).2
    simp only [Bool.and_eq_true, Bool.not_eq_true'] at h
    have hbl : blacklist "worklog" = ["MA"] := rfl
    exact hbl ▸ h.1.1.2
  · intro col hcol
    have h := (mem_selectedAutoCols hcol).2
    have hmem : col ∈ columns := (mem_selectedAutoCols hcol).1
    simp only [Bool.and_eq_true, Bool.not_eq_true'] at h
    by_contra hwd
    rw [Bool.not_eq_false] at hwd
    have hend : col ∈ endColsOf "worklog" columns := by
      apply List.mem_filter.mpr
      exact ⟨hmem, hwd⟩
    have hany : (endColsOf "worklog" columns).any (fun p => p.key = col.key) = true := by
      apply List.any_eq_true.mpr
      exact ⟨col, hend, by simp⟩
    rw [h.1.1.1.2] at hany
    exact Bool.noConfusion hany
  · intro col hcol
    exact (List.mem_filter.mp hcol).2
  · show startColsOf "worklog" columns ++ _ ++ _ = _
    rw [hstart, List.nil_append]

/-- C6 witness. -/
theorem c6_witness :
    matchKey ⟨"Task", "Task", false, false⟩ ["MA"] = false :=
  (c6_worklogFilters [⟨"Task", "Task", false, false⟩] [[("Task", "x")]]).1
    ⟨"Task", "Task", false, false⟩ (by decide)

/-- C7: when sorting on a column whose definition has `isDate`, a record whose
value parses is ordered before one whose value does not (the comparator
returns -1 and, with the arguments swapped, 1) for both directions; when both
parse, the comparator is the timestamp difference in the chosen direction. -/
theorem c7_dateSort (fb : String → Option Int) (columns : List ColumnDefinition)
    (cfg : SortConfig) (a b : LogEntry) (c : ColumnDefinition)
    (hfind : columns.find? (fun cd => cd.key = cfg.key) = some c)
    (hdate : c.isDate = true) :
    (∀ x, parseDate fb (stringOfVal (objGet a cfg.key)) = some x →
      parseDate fb (stringOfVal (objGet b cfg.key)) = none →
      sortCompare fb columns cfg a b = (-1, 0) ∧
        sortCompare fb columns cfg b a = (1, 0)) ∧
    (∀ x y, parseDate fb (stringOfVal (objGet a cfg.key)) = some x →
      parseDate fb (stringOfVal (objGet b cfg.key)) = some y →
      sortCompare fb columns cfg a b =
        ((if cfg.direction = SortDir.asc then x - y else y - x), 0)) := by
  constructor
  · intro x hA hB
    constructor
    · simp [sortCompare, hfind, hdate, dateCompare, hA, hB]
    · simp [sortCompare, hfind, hdate, dateCompare, hA, hB]
  · intro x y hA hB
    simp [sortCompare, hfind, hdate, dateCompare, hA, hB]

/-- C7 witness. -/
theorem c7_witness :
    sortCompare jsDateParse [⟨"d", "D", true, false⟩] ⟨"d", SortDir.desc⟩
        [("d", "1/2/2024")] [("d", "bad")] = (-1, 0) ∧
      sortCompare jsDateParse [⟨"d", "D", true, false⟩] ⟨"d", SortDir.desc⟩
        [("d", "bad")] [("d", "1/2/2024")] = (1, 0) :=
  (c7_dateSort jsDateParse [⟨"d", "D", true, false⟩] ⟨"d", SortDir.desc⟩
      [("d", "1/2/2024")] [("d", "bad")] ⟨"d", "D", true, false⟩ (by decide) rfl).1
    (mkTimestamp 2024 2 1 0 0 0) (by decide) (by decide)

/-- C10: when sorting a date column and neither side parses as a date, the
comparator does not return early (it neither equates the records nor keeps
their order by construction) but falls through to the numeric-then-string
tail; when the column is not also numeric that tail is exactly the generic
string comparison of the raw values. -/
theorem c10_dateSortFallthrough (fb : String → Option Int)
    (columns : List ColumnDefinition) (cfg : SortConfig) (a b : LogEntry)
    (c : ColumnDefinition)
    (hfind : columns.find? (fun cd => cd.key = cfg.key) = some c)
    (hdate : c.isDate = true)
    (hA : parseDate fb (stringOfVal (objGet a cfg.key)) = none)
    (hB : parseDate fb (stringOfVal (objGet b cfg.key)) = none) :
    sortCompare fb columns cfg a b =
      numStrCompare (some c) cfg.direction (objGet a cfg.key) (objGet b cfg.key) ∧
    (c.isNumeric = false →
      sortCompare fb columns cfg a b =
        strCompare cfg.direction (objGet a cfg.key) (objGet b cfg.key)) := by
  have hfall : sortCompare fb columns cfg a b =
      numStrCompare (some c) cfg.direction (objGet a cfg.key) (objGet b cfg.key) := by
    simp [sortCompare, hfind, hdate, dateCompare, hA, hB]
  refine ⟨hfall, ?_⟩
  intro hnum
  rw [hfall]
  simp only [numStrCompare, hnum]
  split
  · simp
  · rfl

/-- C10 witness. -/
theorem c10_witness :
    sortCompare jsDateParse [⟨"d", "D", true, false⟩] ⟨"d", SortDir.asc⟩
      [("d", "zzz")] [("d", "aaa")] = (1, 0) := by
  have h := c10_dateSortFallthrough jsDateParse [⟨"d", "D", true, false⟩]
    ⟨"d", SortDir.asc⟩ [("d", "zzz")] [("d", "aaa")] ⟨"d", "D", true, false⟩
    (by decide) rfl (by decide) (by decide)
  rw [h.2 rfl]
  decide

/-- C8: the export receives the title, the column labels as the header row,
one body row per filtered/searched/sorted record (as many rows as records
passing the search filter — the full matching set, not a page slice), and the
file is saved under the title with whitespace runs replaced by underscores,
suffixed "_Report.pdf". -/
theorem c8_export (fb : String → Option Int) (title : String)
    (columns : List ColumnDefinition) (data : List LogEntry)
    (searchTerm : String) (sortConfig : Option SortConfig) :
    (handleDownload fb title columns data searchTerm sortConfig).title = title ∧
    (handleDownload fb title columns data searchTerm sortConfig).head =
      columns.map (fun col => col.label) ∧
    (handleDownload fb title columns data searchTerm sortConfig).body =
      (processedData fb data searchTerm sortConfig columns).map
        (fun row => columns.map (fun col => objGet row col.key)) ∧
    (handleDownload fb title columns data searchTerm sortConfig).body.length =
      (data.filter (searchMatches searchTerm)).length ∧
    (handleDownload fb title columns data searchTerm sortConfig).filename =
      replaceWhitespaceRuns title ++ "_Report.pdf" := by
  refine ⟨rfl, rfl, rfl, ?_, rfl⟩
  show ((processedData fb data searchTerm sortConfig columns).map _).length = _
  rw [List.length_map]
  cases sortConfig with
  | none => rfl
  | some cfg =>
    show (jsSortBy _ _).length = _
    simp [jsSortBy, List.length_mergeSort]

end GBP
